import Mathlib

/-!
Verification of the Needleman-Wunsch global aligner in `homework2.py`.

The whole program is one function, `global_alignment(seq1, seq2, match_score,
mismatch_penalty, gap_penalty, unpenalized_end_gaps)`.  It builds an
`(M+1) x (N+1)` integer scoring matrix with `np.zeros`, initializes row 0 and
column 0, fills the interior with the usual three-way `max` recurrence, and
then walks back from `(M, N)` collecting emitted character pairs, which it
reverses and joins before returning together with `score_matrix[M][N]`.

The embedding below mirrors the Python source line by line:

* sequences are `List Char` (a Python string is a sequence of characters);
* Python/numpy indexing is modelled by `pyGet` (strings) and `npGet`
  (matrix): a negative index `k` with `-len <= k < 0` wraps around to
  `len + k`, anything further out of range is an `IndexError`, modelled
  as `none`;
* the score matrix is a total function `Nat -> Nat -> Int` together with the
  allocation dimensions `M+1`, `N+1` (as produced by `np.zeros`), updated
  cell by cell exactly in the order of the Python loops;
* the `while i > 0 or j > 0` traceback loop is modelled with an explicit
  fuel parameter.  The fuel `M + 2*N + 8` used by `global_alignment` is a
  strict upper bound on the number of iterations any execution of the
  Python loop can perform before returning or raising: `i` never leaves
  `[0, M]`, each iteration decreases `i + j` by at least one, and once `j`
  falls below `-(N+1)` (flag `unpenalized_end_gaps = True` can push `j`
  negative) the matrix access `score_matrix[i][j]` or the string access
  `seq2[j-1]` raises.  Hence `some` results are exactly the values the
  Python function returns, and `none` models an uncaught `IndexError`.
-/

/-- Python string indexing: `s[k]` wraps negative indices once and raises
(`none`) when out of range. -/
def pyGet (s : List Char) (k : Int) : Option Char :=
  if 0 ≤ k ∧ k < (s.length : Int) then s.get? k.toNat
  else if -(s.length : Int) ≤ k ∧ k < 0 then s.get? (k + (s.length : Int)).toNat
  else none

/-- numpy index resolution along one axis of length `n`. -/
def wrapIdx (n : Nat) (k : Int) : Option Nat :=
  if 0 ≤ k ∧ k < (n : Int) then some k.toNat
  else if -(n : Int) ≤ k ∧ k < 0 then some (k + (n : Int)).toNat
  else none

/-- The scoring matrix contents: a total function from (row, column) to the
stored integer.  The allocated shape `(M+1, N+1)` is carried separately,
matching `np.zeros((M + 1, N + 1), dtype=int)`. -/
abbrev Mat := Nat → Nat → Int

/-- `score_matrix[i][j] = v`, a single cell update. -/
def setCell (m : Mat) (i j : Nat) (v : Int) : Mat :=
  fun a b => if a = i ∧ b = j then v else m a b

/-- `score_matrix[i][j]` with numpy semantics on a matrix of shape
`rows x cols`: negative indices wrap once, anything else raises (`none`). -/
def npGet (rows cols : Nat) (m : Mat) (i j : Int) : Option Int :=
  match wrapIdx rows i, wrapIdx cols j with
  | some a, some b => some (m a b)
  | _, _ => none

/-- The matrix after `np.zeros` and the two initialization loops:
`score_matrix[i][0] = -gap_penalty * i if not unpenalized_end_gaps else 0`
for `i` in `range(1, M+1)`, and symmetrically for row 0. -/
def initMatrix (M N : Nat) (gap_penalty : Int) (unpenalized_end_gaps : Bool) : Mat :=
  let m0 : Mat := fun _ _ => 0
  let m1 := (List.range' 1 M).foldl
    (fun m i => setCell m i 0 (if unpenalized_end_gaps then 0 else -gap_penalty * (i : Int))) m0
  (List.range' 1 N).foldl
    (fun m j => setCell m 0 j (if unpenalized_end_gaps then 0 else -gap_penalty * (j : Int))) m1

/-- One iteration of the fill loops: computes `match`, `delete`, `insert`
for cell `(i, j)` (with `1 ≤ i ≤ M`, `1 ≤ j ≤ N`, so all reads are in
bounds) and stores their maximum. -/
def fillCell (seq1 seq2 : List Char) (match_score mismatch_penalty gap_penalty : Int)
    (m : Mat) (i j : Nat) : Mat :=
  let matchv := m (i-1) (j-1) +
    (if seq1.getD (i-1) ' ' = seq2.getD (j-1) ' ' then match_score else -mismatch_penalty)
  let deletev := m (i-1) j - gap_penalty
  let insertv := m i (j-1) - gap_penalty
  setCell m i j (max matchv (max deletev insertv))

/-- The matrix after the nested fill loops
`for i in range(1, M+1): for j in range(1, N+1): ...`. -/
def fillMatrix (seq1 seq2 : List Char) (match_score mismatch_penalty gap_penalty : Int)
    (unpenalized_end_gaps : Bool) : Mat :=
  (List.range' 1 seq1.length).foldl
    (fun m i => (List.range' 1 seq2.length).foldl
      (fun m j => fillCell seq1 seq2 match_score mismatch_penalty gap_penalty m i j) m)
    (initMatrix seq1.length seq2.length gap_penalty unpenalized_end_gaps)

/-- The dynamic-programming recurrence satisfied by the filled matrix
(used as the reference value in the correctness proofs): boundary cells
from the initialization, interior cells the three-way maximum. -/
def cell (seq1 seq2 : List Char) (match_score mismatch_penalty gap_penalty : Int)
    (unpenalized_end_gaps : Bool) : Nat → Nat → Int
  | 0, 0 => 0
  | i+1, 0 => if unpenalized_end_gaps then 0 else -gap_penalty * ((i+1 : Nat) : Int)
  | 0, j+1 => if unpenalized_end_gaps then 0 else -gap_penalty * ((j+1 : Nat) : Int)
  | i+1, j+1 =>
      max (cell seq1 seq2 match_score mismatch_penalty gap_penalty unpenalized_end_gaps i j +
            (if seq1.getD i ' ' = seq2.getD j ' ' then match_score else -mismatch_penalty))
        (max (cell seq1 seq2 match_score mismatch_penalty gap_penalty unpenalized_end_gaps i (j+1)
                - gap_penalty)
             (cell seq1 seq2 match_score mismatch_penalty gap_penalty unpenalized_end_gaps (i+1) j
                - gap_penalty))
  termination_by i j => i + j

/-- The `else` branch of the traceback loop body:
`aligned_seq1.append('-'); aligned_seq2.append(seq2[j-1]); j -= 1`. -/
def tracebackLeft (seq2 : List Char) (i j : Int) (a1 a2 : List Char) :
    Option (Int × Int × List Char × List Char) :=
  match pyGet seq2 (j-1) with
  | some c2 => some (i, j-1, a1 ++ ['-'], a2 ++ [c2])
  | none => none

/-- The `elif`/`else` tail of the traceback loop body: tries the up move
`i > 0 and score_matrix[i][j] == score_matrix[i-1][j] - gap_penalty`,
otherwise falls through to the left move. -/
def tracebackUp (seq1 seq2 : List Char) (gap_penalty : Int) (m : Mat)
    (i j : Int) (a1 a2 : List Char) : Option (Int × Int × List Char × List Char) :=
  if 0 < i then
    match npGet (seq1.length+1) (seq2.length+1) m i j,
          npGet (seq1.length+1) (seq2.length+1) m (i-1) j with
    | some cij, some cup =>
        if cij = cup - gap_penalty then
          match pyGet seq1 (i-1) with
          | some c1 => some (i-1, j, a1 ++ [c1], a2 ++ ['-'])
          | none => none
        else tracebackLeft seq2 i j a1 a2
    | _, _ => none
  else tracebackLeft seq2 i j a1 a2

/-- One full iteration of the traceback `while` loop body, starting with the
diagonal test
`i > 0 and j > 0 and score_matrix[i][j] == score_matrix[i-1][j-1] + (...)`.
All index accesses follow Python/numpy semantics; `none` is an uncaught
`IndexError`. -/
def tracebackStep (seq1 seq2 : List Char) (match_score mismatch_penalty gap_penalty : Int)
    (m : Mat) (st : Int × Int × List Char × List Char) :
    Option (Int × Int × List Char × List Char) :=
  match st with
  | (i, j, a1, a2) =>
    if 0 < i ∧ 0 < j then
      match npGet (seq1.length+1) (seq2.length+1) m i j,
            npGet (seq1.length+1) (seq2.length+1) m (i-1) (j-1),
            pyGet seq1 (i-1), pyGet seq2 (j-1) with
      | some cij, some cdiag, some c1, some c2 =>
          if cij = cdiag + (if c1 = c2 then match_score else -mismatch_penalty) then
            some (i-1, j-1, a1 ++ [c1], a2 ++ [c2])
          else tracebackUp seq1 seq2 gap_penalty m i j a1 a2
      | _, _, _, _ => none
    else tracebackUp seq1 seq2 gap_penalty m i j a1 a2

/-- The traceback `while i > 0 or j > 0` loop, with fuel (see the header
comment: the fuel passed by `global_alignment` dominates the length of every
possible execution, so `none` means the Python loop raised). -/
def tracebackLoop (seq1 seq2 : List Char) (match_score mismatch_penalty gap_penalty : Int)
    (m : Mat) : Nat → Int × Int × List Char × List Char → Option (List Char × List Char)
  | 0, _ => none
  | fuel+1, (i, j, a1, a2) =>
      if 0 < i ∨ 0 < j then
        match tracebackStep seq1 seq2 match_score mismatch_penalty gap_penalty m (i, j, a1, a2) with
        | some st => tracebackLoop seq1 seq2 match_score mismatch_penalty gap_penalty m fuel st
        | none => none
      else some (a1, a2)

/-- `global_alignment` from `homework2.py`.  Returns
`(aligned_seq1, aligned_seq2, score)` as the Python function does
(reversing the collected emissions, score read at `score_matrix[M][N]`),
or `none` when the Python function raises an uncaught `IndexError`. -/
def global_alignment (seq1 seq2 : List Char)
    (match_score mismatch_penalty gap_penalty : Int) (unpenalized_end_gaps : Bool) :
    Option (List Char × List Char × Int) :=
  let M := seq1.length
  let N := seq2.length
  let m := fillMatrix seq1 seq2 match_score mismatch_penalty gap_penalty unpenalized_end_gaps
  match tracebackLoop seq1 seq2 match_score mismatch_penalty gap_penalty m
      (M + 2*N + 8) ((M : Int), (N : Int), [], []) with
  | some (a1, a2) => some (a1.reverse, a2.reverse, m M N)
  | none => none

/-- Deleting every gap marker `'-'` from an aligned output. -/
def stripGaps (l : List Char) : List Char := l.filter (fun c => c ≠ '-')


/-- A probe matrix used to exhibit that the traceback's left fallback is
taken without consulting the insert candidate. -/
def probeMat : Mat := fun a b => if a = 1 ∧ b = 1 then 5 else 0

/-! ### Characterizing the filled matrix -/

theorem setCell_apply (m : Mat) (i j : Nat) (v : Int) (a b : Nat) :
    setCell m i j v a b = if a = i ∧ b = j then v else m a b := rfl

theorem foldl_setCol_apply (f : Nat → Int) :
    ∀ (len start : Nat) (m : Mat) (a b : Nat),
      ((List.range' start len).foldl (fun m i => setCell m i 0 (f i)) m) a b
        = if b = 0 ∧ start ≤ a ∧ a < start + len then f a else m a b := by
  intro len
  induction len with
  | zero =>
      intro start m a b
      rw [List.range'_zero, List.foldl_nil, if_neg (by omega)]
  | succ n ih =>
      intro start m a b
      rw [List.range'_succ, List.foldl_cons, ih]
      by_cases h : b = 0 ∧ start + 1 ≤ a ∧ a < start + 1 + n
      · rw [if_pos h, if_pos (by omega)]
      · rw [if_neg h, setCell_apply]
        by_cases h2 : a = start ∧ b = 0
        · rw [if_pos h2, if_pos (by omega), h2.1]
        · rw [if_neg h2, if_neg (by omega)]

theorem foldl_setRow_apply (f : Nat → Int) :
    ∀ (len start : Nat) (m : Mat) (a b : Nat),
      ((List.range' start len).foldl (fun m j => setCell m 0 j (f j)) m) a b
        = if a = 0 ∧ start ≤ b ∧ b < start + len then f b else m a b := by
  intro len
  induction len with
  | zero =>
      intro start m a b
      rw [List.range'_zero, List.foldl_nil, if_neg (by omega)]
  | succ n ih =>
      intro start m a b
      rw [List.range'_succ, List.foldl_cons, ih]
      by_cases h : a = 0 ∧ start + 1 ≤ b ∧ b < start + 1 + n
      · rw [if_pos h, if_pos (by omega)]
      · rw [if_neg h, setCell_apply]
        by_cases h2 : a = 0 ∧ b = start
        · rw [if_pos h2, if_pos (by omega), h2.2]
        · rw [if_neg h2, if_neg (by omega)]

theorem initMatrix_apply (M N : Nat) (gp : Int) (fl : Bool) (a b : Nat) :
    initMatrix M N gp fl a b =
      if a = 0 ∧ 1 ≤ b ∧ b ≤ N then (if fl then 0 else -gp * (b : Int))
      else if b = 0 ∧ 1 ≤ a ∧ a ≤ M then (if fl then 0 else -gp * (a : Int))
      else 0 := by
  simp only [initMatrix]
  rw [foldl_setRow_apply (fun j => if fl then 0 else -gp * (j : Int)),
    foldl_setCol_apply (fun i => if fl then 0 else -gp * (i : Int))]
  by_cases h : a = 0 ∧ 1 ≤ b ∧ b < 1 + N
  · rw [if_pos h, if_pos (show a = 0 ∧ 1 ≤ b ∧ b ≤ N by omega)]
  · rw [if_neg h]
    by_cases h2 : b = 0 ∧ 1 ≤ a ∧ a < 1 + M
    · rw [if_pos h2, if_neg (show ¬(a = 0 ∧ 1 ≤ b ∧ b ≤ N) by omega),
        if_pos (show b = 0 ∧ 1 ≤ a ∧ a ≤ M by omega)]
    · rw [if_neg h2, if_neg (show ¬(a = 0 ∧ 1 ≤ b ∧ b ≤ N) by omega),
        if_neg (show ¬(b = 0 ∧ 1 ≤ a ∧ a ≤ M) by omega)]

theorem cell_left_boundary (s1 s2 : List Char) (ms mp gp : Int) (fl : Bool) (i : Nat) :
    cell s1 s2 ms mp gp fl i 0 = if fl then 0 else -gp * (i : Int) := by
  cases i with
  | zero => simp [cell]
  | succ k => simp [cell]

theorem cell_top_boundary (s1 s2 : List Char) (ms mp gp : Int) (fl : Bool) (j : Nat) :
    cell s1 s2 ms mp gp fl 0 j = if fl then 0 else -gp * (j : Int) := by
  cases j with
  | zero => simp [cell]
  | succ k => simp [cell]

theorem cell_succ_succ (s1 s2 : List Char) (ms mp gp : Int) (fl : Bool) (i j : Nat) :
    cell s1 s2 ms mp gp fl (i+1) (j+1) =
      max (cell s1 s2 ms mp gp fl i j +
            (if s1.getD i ' ' = s2.getD j ' ' then ms else -mp))
        (max (cell s1 s2 ms mp gp fl i (j+1) - gp)
             (cell s1 s2 ms mp gp fl (i+1) j - gp)) := by
  rw [cell]

/-- Invariant of the fill loops: all cells of column 0, of rows `< i`, and of
row `i` up to column `jdone` already hold their final recurrence value. -/
def CorrectUpTo (s1 s2 : List Char) (ms mp gp : Int) (fl : Bool)
    (m : Mat) (i jdone : Nat) : Prop :=
  ∀ a b : Nat, a ≤ s1.length → b ≤ s2.length →
    (b = 0 ∨ a < i ∨ (a = i ∧ b ≤ jdone)) →
    m a b = cell s1 s2 ms mp gp fl a b

theorem fillCell_correct (s1 s2 : List Char) (ms mp gp : Int) (fl : Bool)
    (m : Mat) (i j : Nat) (h1 : 1 ≤ i) (hiM : i ≤ s1.length) (hj : j + 1 ≤ s2.length)
    (hm : CorrectUpTo s1 s2 ms mp gp fl m i j) :
    CorrectUpTo s1 s2 ms mp gp fl (fillCell s1 s2 ms mp gp m i (j+1)) i (j+1) := by
  obtain ⟨k, rfl⟩ : ∃ k, i = k + 1 := ⟨i - 1, by omega⟩
  intro a b ha hb hreg
  show setCell m (k+1) (j+1) _ a b = _
  rw [setCell_apply]
  by_cases hab : a = k + 1 ∧ b = j + 1
  · obtain ⟨rfl, rfl⟩ := hab
    rw [if_pos ⟨rfl, rfl⟩, cell_succ_succ]
    have e1 : m (k + 1 - 1) (j + 1 - 1) = cell s1 s2 ms mp gp fl k j := by
      have := hm k j (by omega) (by omega) (by omega)
      simpa using this
    have e2 : m (k + 1 - 1) (j + 1) = cell s1 s2 ms mp gp fl k (j+1) := by
      have := hm k (j+1) (by omega) (by omega) (by omega)
      simpa using this
    have e3 : m (k + 1) (j + 1 - 1) = cell s1 s2 ms mp gp fl (k+1) j := by
      have := hm (k+1) j (by omega) (by omega) (by omega)
      simpa using this
    rw [e1, e2, e3]
    simp only [Nat.add_sub_cancel]
  · rw [if_neg hab]
    apply hm a b ha hb
    omega

theorem fillRow_correct (s1 s2 : List Char) (ms mp gp : Int) (fl : Bool)
    (i : Nat) (h1 : 1 ≤ i) (hiM : i ≤ s1.length) :
    ∀ (len j0 : Nat) (m : Mat), j0 + 1 + len ≤ s2.length + 1 →
      CorrectUpTo s1 s2 ms mp gp fl m i j0 →
      CorrectUpTo s1 s2 ms mp gp fl
        ((List.range' (j0+1) len).foldl (fun m j => fillCell s1 s2 ms mp gp m i j) m)
        i (j0 + len) := by
  intro len
  induction len with
  | zero =>
      intro j0 m hlen hm
      rw [List.range'_zero, List.foldl_nil]
      simpa using hm
  | succ n ih =>
      intro j0 m hlen hm
      rw [List.range'_succ, List.foldl_cons]
      have hstep := fillCell_correct s1 s2 ms mp gp fl m i j0 h1 hiM (by omega) hm
      have := ih (j0 + 1) (fillCell s1 s2 ms mp gp m i (j0+1)) (by omega) hstep
      rw [show j0 + (n + 1) = j0 + 1 + n by omega]
      exact this

theorem correct_row_done (s1 s2 : List Char) (ms mp gp : Int) (fl : Bool)
    (m : Mat) (i : Nat)
    (h : CorrectUpTo s1 s2 ms mp gp fl m i s2.length) :
    CorrectUpTo s1 s2 ms mp gp fl m (i+1) 0 := by
  intro a b ha hb hreg
  apply h a b ha hb
  omega

theorem fillRows_correct (s1 s2 : List Char) (ms mp gp : Int) (fl : Bool) :
    ∀ (len i0 : Nat) (m : Mat), i0 + 1 + len ≤ s1.length + 1 →
      CorrectUpTo s1 s2 ms mp gp fl m (i0 + 1) 0 →
      CorrectUpTo s1 s2 ms mp gp fl
        ((List.range' (i0+1) len).foldl
          (fun m i => (List.range' 1 s2.length).foldl
            (fun m j => fillCell s1 s2 ms mp gp m i j) m) m)
        (i0 + 1 + len) 0 := by
  intro len
  induction len with
  | zero =>
      intro i0 m hlen hm
      rw [List.range'_zero, List.foldl_nil]
      simpa using hm
  | succ n ih =>
      intro i0 m hlen hm
      rw [List.range'_succ, List.foldl_cons]
      have hrow := fillRow_correct s1 s2 ms mp gp fl (i0+1) (by omega) (by omega)
        s2.length 0 m (by omega) hm
      have hdone : CorrectUpTo s1 s2 ms mp gp fl
          ((List.range' 1 s2.length).foldl
            (fun m j => fillCell s1 s2 ms mp gp m (i0+1) j) m) (i0 + 2) 0 := by
        apply correct_row_done
        simpa using hrow
      have := ih (i0 + 1) _ (by omega) hdone
      rw [show i0 + 1 + (n + 1) = i0 + 1 + 1 + n by omega]
      exact this

theorem init_correct (s1 s2 : List Char) (ms mp gp : Int) (fl : Bool) :
    CorrectUpTo s1 s2 ms mp gp fl (initMatrix s1.length s2.length gp fl) 1 0 := by
  intro a b ha hb hreg
  rw [initMatrix_apply]
  have hab : b = 0 ∨ a = 0 := by omega
  rcases hab with rfl | rfl
  · rw [cell_left_boundary]
    by_cases h : 1 ≤ a
    · rw [if_neg (by omega), if_pos (by omega)]
    · have : a = 0 := by omega
      subst this
      rw [if_neg (by omega), if_neg (by omega)]
      simp
  · rw [cell_top_boundary]
    by_cases h : 1 ≤ b
    · rw [if_pos (by omega)]
    · have : b = 0 := by omega
      subst this
      rw [if_neg (by omega), if_neg (by omega)]
      simp

theorem fill_correct (s1 s2 : List Char) (ms mp gp : Int) (fl : Bool)
    (a b : Nat) (ha : a ≤ s1.length) (hb : b ≤ s2.length) :
    fillMatrix s1 s2 ms mp gp fl a b = cell s1 s2 ms mp gp fl a b := by
  have h := fillRows_correct s1 s2 ms mp gp fl s1.length 0
    (initMatrix s1.length s2.length gp fl) (by omega)
    (by simpa using init_correct s1 s2 ms mp gp fl)
  have : fillMatrix s1 s2 ms mp gp fl a b =
      ((List.range' (0+1) s1.length).foldl
        (fun m i => (List.range' 1 s2.length).foldl
          (fun m j => fillCell s1 s2 ms mp gp m i j) m)
        (initMatrix s1.length s2.length gp fl)) a b := rfl
  rw [this]
  apply h a b ha hb
  omega

/-! ### Resolving index accesses for in-range states -/

theorem wrapIdx_nat (n a : Nat) (ha : a < n) : wrapIdx n (a : Int) = some a := by
  unfold wrapIdx
  rw [if_pos (show (0:Int) ≤ (a:Int) ∧ (a:Int) < (n:Int) by omega)]
  simp

theorem npGet_nat (rows cols : Nat) (m : Mat) (a b : Nat) (ha : a < rows) (hb : b < cols) :
    npGet rows cols m (a : Int) (b : Int) = some (m a b) := by
  unfold npGet
  rw [wrapIdx_nat rows a ha, wrapIdx_nat cols b hb]

theorem pyGet_nat (s : List Char) (a : Nat) (ha : a < s.length) :
    pyGet s (a : Int) = s.get? a := by
  unfold pyGet
  rw [if_pos (show (0:Int) ≤ (a:Int) ∧ (a:Int) < (s.length:Int) by omega)]
  simp

theorem get?_lt_length {s : List Char} {a : Nat} {c : Char} (h : s.get? a = some c) :
    a < s.length := by
  by_contra hc
  rw [List.get?_eq_none.mpr (by omega)] at h
  exact Option.noConfusion h

/-! ### The three traceback moves from in-range states -/

theorem tracebackStep_diag (s1 s2 : List Char) (ms mp gp : Int) (m : Mat)
    (i j : Nat) (a1 a2 : List Char) (c1 c2 : Char)
    (h1 : s1.get? i = some c1) (h2 : s2.get? j = some c2)
    (hcond : m (i+1) (j+1) = m i j + (if c1 = c2 then ms else -mp)) :
    tracebackStep s1 s2 ms mp gp m (((i+1 : Nat) : Int), ((j+1 : Nat) : Int), a1, a2)
      = some ((i : Int), (j : Int), a1 ++ [c1], a2 ++ [c2]) := by
  have hi : i < s1.length := get?_lt_length h1
  have hj : j < s2.length := get?_lt_length h2
  have e1 : ((i+1 : Nat) : Int) - 1 = ((i : Nat) : Int) := by push_cast; ring
  have e2 : ((j+1 : Nat) : Int) - 1 = ((j : Nat) : Int) := by push_cast; ring
  simp only [tracebackStep]
  rw [if_pos (show (0:Int) < ((i+1 : Nat) : Int) ∧ (0:Int) < ((j+1 : Nat) : Int) by omega)]
  rw [e1, e2, npGet_nat _ _ _ _ _ (by omega) (by omega), npGet_nat _ _ _ _ _ (by omega) (by omega),
    pyGet_nat _ _ (by omega), pyGet_nat _ _ (by omega), h1, h2]
  simp only [Option.some.injEq]
  rw [if_pos hcond]

theorem tracebackStep_up_j0 (s1 s2 : List Char) (ms mp gp : Int) (m : Mat)
    (i : Nat) (a1 a2 : List Char) (c1 : Char)
    (h1 : s1.get? i = some c1)
    (hcond : m (i+1) 0 = m i 0 - gp) :
    tracebackStep s1 s2 ms mp gp m (((i+1 : Nat) : Int), ((0 : Nat) : Int), a1, a2)
      = some ((i : Int), ((0 : Nat) : Int), a1 ++ [c1], a2 ++ ['-']) := by
  have hi : i < s1.length := get?_lt_length h1
  have e1 : ((i+1 : Nat) : Int) - 1 = ((i : Nat) : Int) := by push_cast; ring
  simp only [tracebackStep]
  rw [if_neg (show ¬((0:Int) < ((i+1 : Nat) : Int) ∧ (0:Int) < ((0 : Nat) : Int)) by omega)]
  unfold tracebackUp
  rw [if_pos (show (0:Int) < ((i+1 : Nat) : Int) by omega)]
  rw [e1, npGet_nat _ _ _ _ _ (by omega) (by omega), npGet_nat _ _ _ _ _ (by omega) (by omega)]
  simp only []
  rw [if_pos hcond, pyGet_nat _ _ (by omega), h1]

theorem tracebackStep_up_pos (s1 s2 : List Char) (ms mp gp : Int) (m : Mat)
    (i j : Nat) (a1 a2 : List Char) (c1 c2 : Char)
    (h1 : s1.get? i = some c1) (h2 : s2.get? j = some c2)
    (hdiag : ¬ m (i+1) (j+1) = m i j + (if c1 = c2 then ms else -mp))
    (hup : m (i+1) (j+1) = m i (j+1) - gp) :
    tracebackStep s1 s2 ms mp gp m (((i+1 : Nat) : Int), ((j+1 : Nat) : Int), a1, a2)
      = some ((i : Int), ((j+1 : Nat) : Int), a1 ++ [c1], a2 ++ ['-']) := by
  have hi : i < s1.length := get?_lt_length h1
  have hj : j < s2.length := get?_lt_length h2
  have e1 : ((i+1 : Nat) : Int) - 1 = ((i : Nat) : Int) := by push_cast; ring
  have e2 : ((j+1 : Nat) : Int) - 1 = ((j : Nat) : Int) := by push_cast; ring
  simp only [tracebackStep]
  rw [if_pos (show (0:Int) < ((i+1 : Nat) : Int) ∧ (0:Int) < ((j+1 : Nat) : Int) by omega)]
  rw [e1, e2, npGet_nat _ _ _ _ _ (by omega) (by omega), npGet_nat _ _ _ _ _ (by omega) (by omega),
    pyGet_nat _ _ (by omega), pyGet_nat _ _ (by omega), h1, h2]
  simp only []
  rw [if_neg hdiag]
  unfold tracebackUp
  rw [if_pos (show (0:Int) < ((i+1 : Nat) : Int) by omega)]
  rw [e1, npGet_nat _ _ _ _ _ (by omega) (by omega), npGet_nat _ _ _ _ _ (by omega) (by omega)]
  simp only []
  rw [if_pos hup, pyGet_nat _ _ (by omega), h1]

theorem tracebackStep_left_i0 (s1 s2 : List Char) (ms mp gp : Int) (m : Mat)
    (j : Nat) (a1 a2 : List Char) (c2 : Char)
    (h2 : s2.get? j = some c2) :
    tracebackStep s1 s2 ms mp gp m (((0 : Nat) : Int), ((j+1 : Nat) : Int), a1, a2)
      = some (((0 : Nat) : Int), (j : Int), a1 ++ ['-'], a2 ++ [c2]) := by
  have hj : j < s2.length := get?_lt_length h2
  have e2 : ((j+1 : Nat) : Int) - 1 = ((j : Nat) : Int) := by push_cast; ring
  simp only [tracebackStep]
  rw [if_neg (show ¬((0:Int) < ((0 : Nat) : Int) ∧ (0:Int) < ((j+1 : Nat) : Int)) by omega)]
  unfold tracebackUp
  rw [if_neg (show ¬((0:Int) < ((0 : Nat) : Int)) by omega)]
  unfold tracebackLeft
  rw [e2, pyGet_nat _ _ (by omega), h2]

theorem tracebackStep_left_pos (s1 s2 : List Char) (ms mp gp : Int) (m : Mat)
    (i j : Nat) (a1 a2 : List Char) (c1 c2 : Char)
    (h1 : s1.get? i = some c1) (h2 : s2.get? j = some c2)
    (hdiag : ¬ m (i+1) (j+1) = m i j + (if c1 = c2 then ms else -mp))
    (hup : ¬ m (i+1) (j+1) = m i (j+1) - gp) :
    tracebackStep s1 s2 ms mp gp m (((i+1 : Nat) : Int), ((j+1 : Nat) : Int), a1, a2)
      = some (((i+1 : Nat) : Int), (j : Int), a1 ++ ['-'], a2 ++ [c2]) := by
  have hi : i < s1.length := get?_lt_length h1
  have hj : j < s2.length := get?_lt_length h2
  have e1 : ((i+1 : Nat) : Int) - 1 = ((i : Nat) : Int) := by push_cast; ring
  have e2 : ((j+1 : Nat) : Int) - 1 = ((j : Nat) : Int) := by push_cast; ring
  simp only [tracebackStep]
  rw [if_pos (show (0:Int) < ((i+1 : Nat) : Int) ∧ (0:Int) < ((j+1 : Nat) : Int) by omega)]
  rw [e1, e2, npGet_nat _ _ _ _ _ (by omega) (by omega), npGet_nat _ _ _ _ _ (by omega) (by omega),
    pyGet_nat _ _ (by omega), pyGet_nat _ _ (by omega), h1, h2]
  simp only []
  rw [if_neg hdiag]
  unfold tracebackUp
  rw [if_pos (show (0:Int) < ((i+1 : Nat) : Int) by omega)]
  rw [e1, npGet_nat _ _ _ _ _ (by omega) (by omega), npGet_nat _ _ _ _ _ (by omega) (by omega)]
  simp only []
  rw [if_neg hup]
  unfold tracebackLeft
  rw [e2, pyGet_nat _ _ (by omega), h2]

/-! ### The traceback loop -/

theorem tracebackLoop_exit (s1 s2 : List Char) (ms mp gp : Int) (m : Mat)
    (fuel : Nat) (a1 a2 : List Char) :
    tracebackLoop s1 s2 ms mp gp m (fuel+1) (((0:Nat) : Int), ((0:Nat) : Int), a1, a2)
      = some (a1, a2) := by
  simp only [tracebackLoop]
  rw [if_neg (show ¬((0:Int) < ((0:Nat) : Int) ∨ (0:Int) < ((0:Nat) : Int)) by omega)]

theorem tracebackLoop_mono (s1 s2 : List Char) (ms mp gp : Int) (m : Mat) :
    ∀ (f1 f2 : Nat) (st : Int × Int × List Char × List Char) (r : List Char × List Char),
      f1 ≤ f2 → tracebackLoop s1 s2 ms mp gp m f1 st = some r →
      tracebackLoop s1 s2 ms mp gp m f2 st = some r := by
  intro f1
  induction f1 with
  | zero =>
      intro f2 st r _ h
      simp [tracebackLoop] at h
  | succ f ih =>
      intro f2 st r hle h
      obtain ⟨f2', rfl⟩ : ∃ f2', f2 = f2' + 1 := ⟨f2 - 1, by omega⟩
      obtain ⟨i, j, a1, a2⟩ := st
      simp only [tracebackLoop] at h ⊢
      by_cases hc : (0:Int) < i ∨ (0:Int) < j
      · rw [if_pos hc] at h ⊢
        cases hstep : tracebackStep s1 s2 ms mp gp m (i, j, a1, a2) with
        | some st2 => rw [hstep] at h; exact ih f2' st2 r (by omega) h
        | none => rw [hstep] at h; exact absurd h (by simp)
      · rw [if_neg hc] at h ⊢; exact h

theorem global_alignment_of_loop {s1 s2 : List Char} {ms mp gp : Int} {fl : Bool}
    {a1 a2 : List Char}
    (h : tracebackLoop s1 s2 ms mp gp (fillMatrix s1 s2 ms mp gp fl)
          (s1.length + 2*s2.length + 8) ((s1.length : Int), (s2.length : Int), [], [])
        = some (a1, a2)) :
    global_alignment s1 s2 ms mp gp fl
      = some (a1.reverse, a2.reverse, fillMatrix s1 s2 ms mp gp fl s1.length s2.length) := by
  simp only [global_alignment]
  rw [h]

theorem global_alignment_score {s1 s2 : List Char} {ms mp gp : Int} {fl : Bool}
    {r : List Char × List Char × Int}
    (h : global_alignment s1 s2 ms mp gp fl = some r) :
    r.2.2 = fillMatrix s1 s2 ms mp gp fl s1.length s2.length := by
  simp only [global_alignment] at h
  cases hloop : tracebackLoop s1 s2 ms mp gp (fillMatrix s1 s2 ms mp gp fl)
      (s1.length + 2*s2.length + 8) ((s1.length : Int), (s2.length : Int), [], []) with
  | some p =>
      obtain ⟨a1, a2⟩ := p
      rw [hloop] at h
      simp only [Option.some.injEq] at h
      rw [← h]
  | none =>
      rw [hloop] at h
      exact absurd h (by simp)

/-! ### Gap-stripping helpers -/

theorem stripGaps_append (a b : List Char) :
    stripGaps (a ++ b) = stripGaps a ++ stripGaps b := by
  simp [stripGaps]

theorem stripGaps_nil : stripGaps [] = [] := rfl

theorem strip_snoc_char {s t : List Char} {n : Nat} {c : Char}
    (h : stripGaps t.reverse = s.take n) (hc : s.get? n = some c) (hs : '-' ∉ s) :
    stripGaps (c :: t).reverse = s.take (n+1) := by
  have hcs : c ∈ s := List.get?_mem hc
  have hcne : ¬ c = '-' := fun e => hs (e ▸ hcs)
  rw [List.reverse_cons, stripGaps_append, h, List.take_succ]
  have : s[n]? = some c := by
    rw [← List.get?_eq_getElem?]
    exact hc
  rw [this]
  simp [stripGaps, hcne]

theorem strip_snoc_gap {t x : List Char} (h : stripGaps t.reverse = x) :
    stripGaps ('-' :: t).reverse = x := by
  rw [List.reverse_cons, stripGaps_append, h]
  simp [stripGaps]

/-! ### Traceback from in-range states, unpenalized_end_gaps = False -/

theorem get?_of_lt (s : List Char) (a : Nat) (ha : a < s.length) :
    ∃ c, s.get? a = some c := by
  cases h : s.get? a with
  | some c => exact ⟨c, rfl⟩
  | none =>
      rw [List.get?_eq_none] at h
      omega

theorem fillMatrix_col0 (s1 s2 : List Char) (ms mp gp : Int) (i : Nat) (hi : i ≤ s1.length) :
    fillMatrix s1 s2 ms mp gp false i 0 = -gp * (i : Int) := by
  rw [fill_correct s1 s2 ms mp gp false i 0 hi (by omega), cell_left_boundary]
  simp

theorem fillMatrix_row0 (s1 s2 : List Char) (ms mp gp : Int) (j : Nat) (hj : j ≤ s2.length) :
    fillMatrix s1 s2 ms mp gp false 0 j = -gp * (j : Int) := by
  rw [fill_correct s1 s2 ms mp gp false 0 j (by omega) hj, cell_top_boundary]
  simp


/-- One iteration of the traceback loop, when the guard holds and the body
succeeds. -/
theorem tracebackLoop_cont {s1 s2 : List Char} {ms mp gp : Int} {m : Mat}
    (fuel : Nat) {i j : Int} {a1 a2 : List Char}
    {st2 : Int × Int × List Char × List Char}
    (h : (0:Int) < i ∨ (0:Int) < j)
    (hstep : tracebackStep s1 s2 ms mp gp m (i, j, a1, a2) = some st2) :
    tracebackLoop s1 s2 ms mp gp m (fuel+1) (i, j, a1, a2)
      = tracebackLoop s1 s2 ms mp gp m fuel st2 := by
  simp only [tracebackLoop]
  rw [if_pos h, hstep]

/-- Main traceback invariant for `unpenalized_end_gaps = False`: from any
in-range state the loop (with fuel one more than `i + j`) returns, appends
equally many characters to both accumulators, and the appended emissions,
reversed and stripped of gap markers, are exactly the consumed prefixes. -/
theorem tracebackLoop_strip (s1 s2 : List Char) (ms mp gp : Int)
    (hd1 : '-' ∉ s1) (hd2 : '-' ∉ s2) :
    ∀ (k i j : Nat) (a1 a2 : List Char), i + j ≤ k → i ≤ s1.length → j ≤ s2.length →
      ∃ t1 t2 : List Char,
        tracebackLoop s1 s2 ms mp gp (fillMatrix s1 s2 ms mp gp false) (k+1)
            ((i : Int), (j : Int), a1, a2) = some (a1 ++ t1, a2 ++ t2)
        ∧ t1.length = t2.length
        ∧ stripGaps t1.reverse = s1.take i
        ∧ stripGaps t2.reverse = s2.take j := by
  intro k
  induction k with
  | zero =>
      intro i j a1 a2 hk hi hj
      have hi0 : i = 0 := by omega
      have hj0 : j = 0 := by omega
      subst hi0; subst hj0
      exact ⟨[], [], by rw [tracebackLoop_exit]; simp, rfl, by simp [stripGaps], by simp [stripGaps]⟩
  | succ k ih =>
      intro i j a1 a2 hk hi hj
      by_cases hij : i = 0 ∧ j = 0
      · obtain ⟨rfl, rfl⟩ := hij
        exact ⟨[], [], by rw [tracebackLoop_exit]; simp, rfl, by simp [stripGaps], by simp [stripGaps]⟩
      · have hcond : (0:Int) < (i:Int) ∨ (0:Int) < (j:Int) := by omega
        cases i with
        | zero =>
            obtain ⟨j', rfl⟩ : ∃ j', j = j' + 1 := ⟨j - 1, by omega⟩
            obtain ⟨c2, hc2⟩ := get?_of_lt s2 j' (by omega)
            have hstep := tracebackStep_left_i0 s1 s2 ms mp gp
              (fillMatrix s1 s2 ms mp gp false) j' a1 a2 c2 hc2
            obtain ⟨t1, t2, hloop, hlen, h1, h2⟩ :=
              ih 0 j' (a1 ++ ['-']) (a2 ++ [c2]) (by omega) (by omega) (by omega)
            refine ⟨'-' :: t1, c2 :: t2, ?_, by simpa using hlen,
              strip_snoc_gap h1, strip_snoc_char h2 hc2 hd2⟩
            rw [tracebackLoop_cont (k+1) hcond hstep, hloop]
            simp [List.append_assoc]
        | succ i' =>
            cases j with
            | zero =>
                obtain ⟨c1, hc1⟩ := get?_of_lt s1 i' (by omega)
                have hup : fillMatrix s1 s2 ms mp gp false (i'+1) 0
                    = fillMatrix s1 s2 ms mp gp false i' 0 - gp := by
                  rw [fillMatrix_col0 s1 s2 ms mp gp (i'+1) (by omega),
                    fillMatrix_col0 s1 s2 ms mp gp i' (by omega)]
                  push_cast; ring
                have hstep := tracebackStep_up_j0 s1 s2 ms mp gp
                  (fillMatrix s1 s2 ms mp gp false) i' a1 a2 c1 hc1 hup
                obtain ⟨t1, t2, hloop, hlen, h1, h2⟩ :=
                  ih i' 0 (a1 ++ [c1]) (a2 ++ ['-']) (by omega) (by omega) (by omega)
                refine ⟨c1 :: t1, '-' :: t2, ?_, by simpa using hlen,
                  strip_snoc_char h1 hc1 hd1, strip_snoc_gap h2⟩
                rw [tracebackLoop_cont (k+1) hcond hstep, hloop]
                simp [List.append_assoc]
            | succ j' =>
                obtain ⟨c1, hc1⟩ := get?_of_lt s1 i' (by omega)
                obtain ⟨c2, hc2⟩ := get?_of_lt s2 j' (by omega)
                by_cases hdiag : fillMatrix s1 s2 ms mp gp false (i'+1) (j'+1)
                    = fillMatrix s1 s2 ms mp gp false i' j' + (if c1 = c2 then ms else -mp)
                · have hstep := tracebackStep_diag s1 s2 ms mp gp
                    (fillMatrix s1 s2 ms mp gp false) i' j' a1 a2 c1 c2 hc1 hc2 hdiag
                  obtain ⟨t1, t2, hloop, hlen, h1, h2⟩ :=
                    ih i' j' (a1 ++ [c1]) (a2 ++ [c2]) (by omega) (by omega) (by omega)
                  refine ⟨c1 :: t1, c2 :: t2, ?_, by simpa using hlen,
                    strip_snoc_char h1 hc1 hd1, strip_snoc_char h2 hc2 hd2⟩
                  rw [tracebackLoop_cont (k+1) hcond hstep, hloop]
                  simp [List.append_assoc]
                · by_cases hup : fillMatrix s1 s2 ms mp gp false (i'+1) (j'+1)
                      = fillMatrix s1 s2 ms mp gp false i' (j'+1) - gp
                  · have hstep := tracebackStep_up_pos s1 s2 ms mp gp
                      (fillMatrix s1 s2 ms mp gp false) i' j' a1 a2 c1 c2 hc1 hc2 hdiag hup
                    obtain ⟨t1, t2, hloop, hlen, h1, h2⟩ :=
                      ih i' (j'+1) (a1 ++ [c1]) (a2 ++ ['-']) (by omega) (by omega) (by omega)
                    refine ⟨c1 :: t1, '-' :: t2, ?_, by simpa using hlen,
                      strip_snoc_char h1 hc1 hd1, strip_snoc_gap h2⟩
                    rw [tracebackLoop_cont (k+1) hcond hstep, hloop]
                    simp [List.append_assoc]
                  · have hstep := tracebackStep_left_pos s1 s2 ms mp gp
                      (fillMatrix s1 s2 ms mp gp false) i' j' a1 a2 c1 c2 hc1 hc2 hdiag hup
                    obtain ⟨t1, t2, hloop, hlen, h1, h2⟩ :=
                      ih (i'+1) j' (a1 ++ ['-']) (a2 ++ [c2]) (by omega) (by omega) (by omega)
                    refine ⟨'-' :: t1, c2 :: t2, ?_, by simpa using hlen,
                      strip_snoc_gap h1, strip_snoc_char h2 hc2 hd2⟩
                    rw [tracebackLoop_cont (k+1) hcond hstep, hloop]
                    simp [List.append_assoc]

/-- Single-step safety and progress for `unpenalized_end_gaps = False`: from
any in-range state with the loop guard true, the body raises nothing, stays
in range, and strictly decreases `i + j`. -/
theorem tracebackStep_progress (s1 s2 : List Char) (ms mp gp : Int)
    (i j : Nat) (hi : i ≤ s1.length) (hj : j ≤ s2.length) (hpos : 0 < i ∨ 0 < j)
    (a1 a2 : List Char) :
    ∃ (i2 j2 : Nat) (b1 b2 : List Char),
      tracebackStep s1 s2 ms mp gp (fillMatrix s1 s2 ms mp gp false)
          ((i : Int), (j : Int), a1, a2) = some ((i2 : Int), (j2 : Int), b1, b2)
      ∧ i2 ≤ s1.length ∧ j2 ≤ s2.length ∧ i2 + j2 < i + j
      ∧ i ≤ i2 + 1 ∧ j ≤ j2 + 1 := by
  cases i with
  | zero =>
      obtain ⟨j', rfl⟩ : ∃ j', j = j' + 1 := ⟨j - 1, by omega⟩
      obtain ⟨c2, hc2⟩ := get?_of_lt s2 j' (by omega)
      exact ⟨0, j', a1 ++ ['-'], a2 ++ [c2],
        tracebackStep_left_i0 s1 s2 ms mp gp _ j' a1 a2 c2 hc2,
        by omega, by omega, by omega, by omega, by omega⟩
  | succ i' =>
      cases j with
      | zero =>
          obtain ⟨c1, hc1⟩ := get?_of_lt s1 i' (by omega)
          have hup : fillMatrix s1 s2 ms mp gp false (i'+1) 0
              = fillMatrix s1 s2 ms mp gp false i' 0 - gp := by
            rw [fillMatrix_col0 s1 s2 ms mp gp (i'+1) (by omega),
              fillMatrix_col0 s1 s2 ms mp gp i' (by omega)]
            push_cast; ring
          exact ⟨i', 0, a1 ++ [c1], a2 ++ ['-'],
            tracebackStep_up_j0 s1 s2 ms mp gp _ i' a1 a2 c1 hc1 hup,
            by omega, by omega, by omega, by omega, by omega⟩
      | succ j' =>
          obtain ⟨c1, hc1⟩ := get?_of_lt s1 i' (by omega)
          obtain ⟨c2, hc2⟩ := get?_of_lt s2 j' (by omega)
          by_cases hdiag : fillMatrix s1 s2 ms mp gp false (i'+1) (j'+1)
              = fillMatrix s1 s2 ms mp gp false i' j' + (if c1 = c2 then ms else -mp)
          · exact ⟨i', j', a1 ++ [c1], a2 ++ [c2],
              tracebackStep_diag s1 s2 ms mp gp _ i' j' a1 a2 c1 c2 hc1 hc2 hdiag,
              by omega, by omega, by omega, by omega, by omega⟩
          · by_cases hup : fillMatrix s1 s2 ms mp gp false (i'+1) (j'+1)
                = fillMatrix s1 s2 ms mp gp false i' (j'+1) - gp
            · exact ⟨i', j'+1, a1 ++ [c1], a2 ++ ['-'],
                tracebackStep_up_pos s1 s2 ms mp gp _ i' j' a1 a2 c1 c2 hc1 hc2 hdiag hup,
                by omega, by omega, by omega, by omega, by omega⟩
            · exact ⟨i'+1, j', a1 ++ ['-'], a2 ++ [c2],
                tracebackStep_left_pos s1 s2 ms mp gp _ i' j' a1 a2 c1 c2 hc1 hc2 hdiag hup,
                by omega, by omega, by omega, by omega, by omega⟩

/-- Termination of the traceback for `unpenalized_end_gaps = False`: fuel
`i + j + 1` (that is, at most `i + j` loop iterations) suffices from any
in-range state, for arbitrary sequences and scoring parameters. -/
theorem tracebackLoop_success (s1 s2 : List Char) (ms mp gp : Int) :
    ∀ (k i j : Nat) (a1 a2 : List Char), i + j ≤ k → i ≤ s1.length → j ≤ s2.length →
      ∃ r, tracebackLoop s1 s2 ms mp gp (fillMatrix s1 s2 ms mp gp false) (k+1)
          ((i : Int), (j : Int), a1, a2) = some r := by
  intro k
  induction k with
  | zero =>
      intro i j a1 a2 hk hi hj
      have hi0 : i = 0 := by omega
      have hj0 : j = 0 := by omega
      subst hi0; subst hj0
      exact ⟨(a1, a2), tracebackLoop_exit s1 s2 ms mp gp _ 0 a1 a2⟩
  | succ k ih =>
      intro i j a1 a2 hk hi hj
      by_cases hij : i = 0 ∧ j = 0
      · obtain ⟨rfl, rfl⟩ := hij
        exact ⟨(a1, a2), tracebackLoop_exit s1 s2 ms mp gp _ (k+1) a1 a2⟩
      · obtain ⟨i2, j2, b1, b2, hstep, hi2, hj2, hlt, _, _⟩ :=
          tracebackStep_progress s1 s2 ms mp gp i j hi hj (by omega) a1 a2
        obtain ⟨r, hr⟩ := ih i2 j2 b1 b2 (by omega) hi2 hj2
        exact ⟨r, by rw [tracebackLoop_cont (k+1) (by omega) hstep]; exact hr⟩

/-- Traceback along row 0: only left moves, emitting all of `seq2` against
gaps. -/
theorem tracebackLoop_row0 (s1 s2 : List Char) (ms mp gp : Int) :
    ∀ (j k : Nat) (a1 a2 : List Char), j ≤ s2.length → j ≤ k →
      tracebackLoop s1 s2 ms mp gp (fillMatrix s1 s2 ms mp gp false) (k+1)
          (((0:Nat) : Int), (j : Int), a1, a2)
        = some (a1 ++ List.replicate j '-', a2 ++ (s2.take j).reverse) := by
  intro j
  induction j with
  | zero =>
      intro k a1 a2 _ _
      rw [tracebackLoop_exit]
      simp
  | succ j' ih =>
      intro k a1 a2 hj hk
      obtain ⟨k', rfl⟩ : ∃ k', k = k' + 1 := ⟨k - 1, by omega⟩
      obtain ⟨c2, hc2⟩ := get?_of_lt s2 j' (by omega)
      have hstep := tracebackStep_left_i0 s1 s2 ms mp gp
        (fillMatrix s1 s2 ms mp gp false) j' a1 a2 c2 hc2
      rw [tracebackLoop_cont (k'+1) (by omega) hstep,
        ih k' (a1 ++ ['-']) (a2 ++ [c2]) (by omega) (by omega)]
      have h2 : s2.take (j'+1) = s2.take j' ++ [c2] := by
        rw [List.take_succ, ← List.get?_eq_getElem?, hc2]
        rfl
      rw [h2]
      simp [List.append_assoc, List.replicate_succ, List.reverse_append]

/-- Traceback along column 0 with `unpenalized_end_gaps = False`: the up
condition holds at every boundary cell, so only up moves are taken, emitting
all of `seq1` against gaps. -/
theorem tracebackLoop_col0 (s1 s2 : List Char) (ms mp gp : Int) :
    ∀ (i k : Nat) (a1 a2 : List Char), i ≤ s1.length → i ≤ k →
      tracebackLoop s1 s2 ms mp gp (fillMatrix s1 s2 ms mp gp false) (k+1)
          ((i : Int), ((0:Nat) : Int), a1, a2)
        = some (a1 ++ (s1.take i).reverse, a2 ++ List.replicate i '-') := by
  intro i
  induction i with
  | zero =>
      intro k a1 a2 _ _
      rw [tracebackLoop_exit]
      simp
  | succ i' ih =>
      intro k a1 a2 hi hk
      obtain ⟨k', rfl⟩ : ∃ k', k = k' + 1 := ⟨k - 1, by omega⟩
      obtain ⟨c1, hc1⟩ := get?_of_lt s1 i' (by omega)
      have hup : fillMatrix s1 s2 ms mp gp false (i'+1) 0
          = fillMatrix s1 s2 ms mp gp false i' 0 - gp := by
        rw [fillMatrix_col0 s1 s2 ms mp gp (i'+1) (by omega),
          fillMatrix_col0 s1 s2 ms mp gp i' (by omega)]
        push_cast; ring
      have hstep := tracebackStep_up_j0 s1 s2 ms mp gp
        (fillMatrix s1 s2 ms mp gp false) i' a1 a2 c1 hc1 hup
      rw [tracebackLoop_cont (k'+1) (by omega) hstep,
        ih k' (a1 ++ [c1]) (a2 ++ ['-']) (by omega) (by omega)]
      have h1 : s1.take (i'+1) = s1.take i' ++ [c1] := by
        rw [List.take_succ, ← List.get?_eq_getElem?, hc1]
        rfl
      rw [h1]
      simp [List.append_assoc, List.replicate_succ, List.reverse_append]

/-! ### Arithmetic facts about the recurrence -/

theorem cell_mono_ms (s1 s2 : List Char) (ms ms' mp gp : Int) (fl : Bool) (h : ms ≤ ms') :
    ∀ (n i j : Nat), i + j ≤ n →
      cell s1 s2 ms mp gp fl i j ≤ cell s1 s2 ms' mp gp fl i j := by
  intro n
  induction n with
  | zero =>
      intro i j hn
      have hi : i = 0 := by omega
      have hj : j = 0 := by omega
      subst hi; subst hj
      simp [cell]
  | succ n ih =>
      intro i j hn
      cases i with
      | zero => rw [cell_top_boundary, cell_top_boundary]
      | succ i' =>
          cases j with
          | zero => rw [cell_left_boundary, cell_left_boundary]
          | succ j' =>
              rw [cell_succ_succ, cell_succ_succ]
              apply max_le_max
              · have hc := ih i' j' (by omega)
                by_cases hch : s1.getD i' ' ' = s2.getD j' ' '
                · rw [if_pos hch, if_pos hch]; omega
                · rw [if_neg hch, if_neg hch]; omega
              · apply max_le_max
                · have hc := ih i' (j'+1) (by omega)
                  omega
                · have hc := ih (i'+1) j' (by omega)
                  omega

theorem cell_anti_mp (s1 s2 : List Char) (ms mp mp' gp : Int) (fl : Bool) (h : mp ≤ mp') :
    ∀ (n i j : Nat), i + j ≤ n →
      cell s1 s2 ms mp' gp fl i j ≤ cell s1 s2 ms mp gp fl i j := by
  intro n
  induction n with
  | zero =>
      intro i j hn
      have hi : i = 0 := by omega
      have hj : j = 0 := by omega
      subst hi; subst hj
      simp [cell]
  | succ n ih =>
      intro i j hn
      cases i with
      | zero => rw [cell_top_boundary, cell_top_boundary]
      | succ i' =>
          cases j with
          | zero => rw [cell_left_boundary, cell_left_boundary]
          | succ j' =>
              rw [cell_succ_succ, cell_succ_succ]
              apply max_le_max
              · have hc := ih i' j' (by omega)
                by_cases hch : s1.getD i' ' ' = s2.getD j' ' '
                · rw [if_pos hch, if_pos hch]; omega
                · rw [if_neg hch, if_neg hch]; omega
              · apply max_le_max
                · have hc := ih i' (j'+1) (by omega)
                  omega
                · have hc := ih (i'+1) j' (by omega)
                  omega

theorem cell_anti_gp (s1 s2 : List Char) (ms mp gp gp' : Int) (fl : Bool) (h : gp ≤ gp') :
    ∀ (n i j : Nat), i + j ≤ n →
      cell s1 s2 ms mp gp' fl i j ≤ cell s1 s2 ms mp gp fl i j := by
  intro n
  induction n with
  | zero =>
      intro i j hn
      have hi : i = 0 := by omega
      have hj : j = 0 := by omega
      subst hi; subst hj
      simp [cell]
  | succ n ih =>
      intro i j hn
      cases i with
      | zero =>
          rw [cell_top_boundary, cell_top_boundary]
          cases fl with
          | true => simp
          | false =>
              simp only [Bool.false_eq_true, if_false]
              have hj0 : (0:Int) ≤ (j : Int) := by omega
              nlinarith
      | succ i' =>
          cases j with
          | zero =>
              rw [cell_left_boundary, cell_left_boundary]
              cases fl with
              | true => simp
              | false =>
                  simp only [Bool.false_eq_true, if_false]
                  have hi0 : (0:Int) ≤ ((i'+1 : Nat) : Int) := by omega
                  nlinarith
          | succ j' =>
              rw [cell_succ_succ, cell_succ_succ]
              apply max_le_max
              · have hc := ih i' j' (by omega)
                omega
              · apply max_le_max
                · have hc := ih i' (j'+1) (by omega)
                  omega
                · have hc := ih (i'+1) j' (by omega)
                  omega

theorem cell_transpose (s1 s2 : List Char) (ms mp gp : Int) (fl : Bool) :
    ∀ (n i j : Nat), i + j ≤ n →
      cell s2 s1 ms mp gp fl j i = cell s1 s2 ms mp gp fl i j := by
  intro n
  induction n with
  | zero =>
      intro i j hn
      have hi : i = 0 := by omega
      have hj : j = 0 := by omega
      subst hi; subst hj
      simp [cell]
  | succ n ih =>
      intro i j hn
      cases i with
      | zero => rw [cell_left_boundary, cell_top_boundary]
      | succ i' =>
          cases j with
          | zero => rw [cell_top_boundary, cell_left_boundary]
          | succ j' =>
              rw [cell_succ_succ, cell_succ_succ,
                ih i' j' (by omega), ih (i'+1) j' (by omega), ih i' (j'+1) (by omega)]
              by_cases hch : s1.getD i' ' ' = s2.getD j' ' '
              · rw [if_pos hch, if_pos hch.symm]
                exact congrArg (max _) (max_comm _ _)
              · rw [if_neg hch, if_neg (fun e => hch e.symm)]
                exact congrArg (max _) (max_comm _ _)

/-! ### Aligning a sequence with itself -/

theorem cell_le_ms_min (A : List Char) (ms mp gp : Int) (fl : Bool)
    (hms : 0 ≤ ms) (hmp : 0 ≤ mp) (hgp : 0 ≤ gp) :
    ∀ (n i j : Nat), i + j ≤ n →
      cell A A ms mp gp fl i j ≤ ms * ((min i j : Nat) : Int) := by
  intro n
  induction n with
  | zero =>
      intro i j hn
      have hi : i = 0 := by omega
      have hj : j = 0 := by omega
      subst hi; subst hj
      simp [cell]
  | succ n ih =>
      intro i j hn
      cases i with
      | zero =>
          rw [cell_top_boundary]
          have hz : ((min 0 j : Nat) : Int) = 0 := by simp
      
          rw [hz]
          cases fl with
          | true => simp
          | false =>
              simp only [Bool.false_eq_true, if_false]
              have hj0 : (0:Int) ≤ (j : Int) := by omega
              nlinarith
      | succ i' =>
          cases j with
          | zero =>
              rw [cell_left_boundary]
              have hz : ((min (i'+1) 0 : Nat) : Int) = 0 := by simp
              rw [hz]
              cases fl with
              | true => simp
              | false =>
                  simp only [Bool.false_eq_true, if_false]
                  have hi0 : (0:Int) ≤ ((i'+1 : Nat) : Int) := by omega
                  nlinarith
          | succ j' =>
              rw [cell_succ_succ]
              have h1 := ih i' j' (by omega)
              have h2 := ih i' (j'+1) (by omega)
              have h3 := ih (i'+1) j' (by omega)
              have hmin1 : ((min (i'+1) (j'+1) : Nat) : Int) = ((min i' j' : Nat) : Int) + 1 := by
                rw [Nat.succ_min_succ]
                push_cast
                ring
              have hmin2 : ((min i' (j'+1) : Nat) : Int) ≤ ((min (i'+1) (j'+1) : Nat) : Int) := by
                have : min i' (j'+1) ≤ min (i'+1) (j'+1) := by omega
                exact_mod_cast this
              have hmin3 : ((min (i'+1) j' : Nat) : Int) ≤ ((min (i'+1) (j'+1) : Nat) : Int) := by
                have : min (i'+1) j' ≤ min (i'+1) (j'+1) := by omega
                exact_mod_cast this
              apply max_le
              · rw [hmin1]
                by_cases hch : A.getD i' ' ' = A.getD j' ' '
                · rw [if_pos hch]
                  nlinarith
                · rw [if_neg hch]
                  nlinarith
              · apply max_le
                · nlinarith
                · nlinarith

theorem cell_diag (A : List Char) (ms mp gp : Int) (fl : Bool)
    (hms : 0 ≤ ms) (hmp : 0 ≤ mp) (hgp : 0 ≤ gp) :
    ∀ k : Nat, cell A A ms mp gp fl k k = ms * (k : Int) := by
  intro k
  induction k with
  | zero => simp [cell]
  | succ k ih =>
      have hle := cell_le_ms_min A ms mp gp fl hms hmp hgp (2*(k+1)) (k+1) (k+1) (by omega)
      have hminkk : ((min (k+1) (k+1) : Nat) : Int) = ((k+1 : Nat) : Int) := by simp
      rw [hminkk] at hle
      have hge : cell A A ms mp gp fl k k +
          (if A.getD k ' ' = A.getD k ' ' then ms else -mp)
          ≤ cell A A ms mp gp fl (k+1) (k+1) := by
        rw [cell_succ_succ]
        exact le_max_left _ _
      rw [if_pos rfl, ih] at hge
      have hsucc : ms * ((k+1 : Nat) : Int) = ms * (k : Int) + ms := by
        push_cast
        ring
      omega

/-- Aligning a sequence against itself: the diagonal test succeeds at every
cell `(k, k)`, for either value of the flag, so the traceback walks the main
diagonal and emits the sequence against itself. -/
theorem tracebackLoop_diagonal (A : List Char) (ms mp gp : Int) (fl : Bool)
    (hms : 0 ≤ ms) (hmp : 0 ≤ mp) (hgp : 0 ≤ gp) :
    ∀ (k fuel : Nat) (a1 a2 : List Char), k ≤ A.length → k ≤ fuel →
      tracebackLoop A A ms mp gp (fillMatrix A A ms mp gp fl) (fuel+1)
          ((k : Int), (k : Int), a1, a2)
        = some (a1 ++ (A.take k).reverse, a2 ++ (A.take k).reverse) := by
  intro k
  induction k with
  | zero =>
      intro fuel a1 a2 _ _
      rw [tracebackLoop_exit]
      simp
  | succ k' ih =>
      intro fuel a1 a2 hk hfuel
      obtain ⟨f', rfl⟩ : ∃ f', fuel = f' + 1 := ⟨fuel - 1, by omega⟩
      obtain ⟨c, hc⟩ := get?_of_lt A k' (by omega)
      have hdiag : fillMatrix A A ms mp gp fl (k'+1) (k'+1)
          = fillMatrix A A ms mp gp fl k' k' + (if c = c then ms else -mp) := by
        rw [fill_correct A A ms mp gp fl (k'+1) (k'+1) (by omega) (by omega),
          fill_correct A A ms mp gp fl k' k' (by omega) (by omega),
          cell_diag A ms mp gp fl hms hmp hgp (k'+1),
          cell_diag A ms mp gp fl hms hmp hgp k', if_pos rfl]
        push_cast
        ring
      have hstep := tracebackStep_diag A A ms mp gp
        (fillMatrix A A ms mp gp fl) k' k' a1 a2 c c hc hc hdiag
      rw [tracebackLoop_cont (f'+1) (by omega) hstep,
        ih f' (a1 ++ [c]) (a2 ++ [c]) (by omega) (by omega)]
      have h1 : A.take (k'+1) = A.take k' ++ [c] := by
        rw [List.take_succ, ← List.get?_eq_getElem?, hc]
        rfl
      rw [h1]
      simp [List.append_assoc, List.reverse_append]

/-! ### Claim theorems -/

/-- C1: after the fill loops, every interior cell `(i, j)` with
`1 ≤ i ≤ M`, `1 ≤ j ≤ N` equals the maximum of the three candidates
`cell(i-1,j-1) + (matchScore if seq1[i-1] == seq2[j-1] else -mismatchPenalty)`,
`cell(i-1,j) - gapPenalty` and `cell(i,j-1) - gapPenalty`; and whenever
`global_alignment` returns a result, its score component is the filled
matrix entry at `(M, N)`. -/
theorem c1_fill_recurrence_and_score (s1 s2 : List Char) (ms mp gp : Int) (fl : Bool)
    (i j : Nat) (hi1 : 1 ≤ i) (hiM : i ≤ s1.length) (hj1 : 1 ≤ j) (hjN : j ≤ s2.length) :
    fillMatrix s1 s2 ms mp gp fl i j
      = max (fillMatrix s1 s2 ms mp gp fl (i-1) (j-1)
              + (if s1.getD (i-1) ' ' = s2.getD (j-1) ' ' then ms else -mp))
          (max (fillMatrix s1 s2 ms mp gp fl (i-1) j - gp)
               (fillMatrix s1 s2 ms mp gp fl i (j-1) - gp))
    ∧ (∀ r : List Char × List Char × Int,
        global_alignment s1 s2 ms mp gp fl = some r
        → r.2.2 = fillMatrix s1 s2 ms mp gp fl s1.length s2.length) := by
  constructor
  · obtain ⟨i', rfl⟩ : ∃ i', i = i' + 1 := ⟨i - 1, by omega⟩
    obtain ⟨j', rfl⟩ : ∃ j', j = j' + 1 := ⟨j - 1, by omega⟩
    rw [fill_correct s1 s2 ms mp gp fl (i'+1) (j'+1) (by omega) (by omega)]
    simp only [Nat.add_sub_cancel]
    rw [fill_correct s1 s2 ms mp gp fl i' j' (by omega) (by omega),
      fill_correct s1 s2 ms mp gp fl i' (j'+1) (by omega) (by omega),
      fill_correct s1 s2 ms mp gp fl (i'+1) j' (by omega) (by omega)]
    exact cell_succ_succ s1 s2 ms mp gp fl i' j'
  · intro r hr
    exact global_alignment_score hr

theorem c1_witness :
    (1 ≤ (['A'] : List Char).length ∧ 1 ≤ (['B'] : List Char).length)
    ∧ (fillMatrix ['A'] ['B'] 2 1 1 false 1 1
        = max (fillMatrix ['A'] ['B'] 2 1 1 false 0 0
                + (if (['A'] : List Char).getD 0 ' ' = (['B'] : List Char).getD 0 ' '
                    then 2 else -1))
            (max (fillMatrix ['A'] ['B'] 2 1 1 false 0 1 - 1)
                 (fillMatrix ['A'] ['B'] 2 1 1 false 1 0 - 1)))
    ∧ ((['A'], ['B'], (-1 : Int)) : List Char × List Char × Int).2.2
        = fillMatrix ['A'] ['B'] 2 1 1 false 1 1 :=
  ⟨⟨by decide, by decide⟩,
   (c1_fill_recurrence_and_score ['A'] ['B'] 2 1 1 false 1 1
      (by decide) (by decide) (by decide) (by decide)).1,
   (c1_fill_recurrence_and_score ['A'] ['B'] 2 1 1 false 1 1
      (by decide) (by decide) (by decide) (by decide)).2
      (['A'], ['B'], (-1 : Int)) (by decide)⟩

/-- C2 counterexample: with `unpenalized_end_gaps = True` the traceback can
walk through negative `j` indices (numpy wrap-around) and duplicate a symbol:
stripping the gap markers from the second output does not reconstruct
`seq2`. -/
theorem c2_counterexample :
    global_alignment ['A','B'] ['B'] 1 1 1 true
        = some (['A','-','B'], ['-','B','B'], 1)
      ∧ stripGaps ['-','B','B'] ≠ ['B'] := by
  constructor
  · decide
  · decide

/-- C2 amended: for `unpenalized_end_gaps = False` and sequences free of the
gap marker, the two outputs have equal length and stripping the gap markers
reconstructs the inputs exactly. -/
theorem c2_amended (s1 s2 : List Char) (ms mp gp : Int)
    (hd1 : '-' ∉ s1) (hd2 : '-' ∉ s2) :
    ∃ (o1 o2 : List Char) (sc : Int),
      global_alignment s1 s2 ms mp gp false = some (o1, o2, sc)
      ∧ o1.length = o2.length ∧ stripGaps o1 = s1 ∧ stripGaps o2 = s2 := by
  obtain ⟨t1, t2, hloop, hlen, h1, h2⟩ :=
    tracebackLoop_strip s1 s2 ms mp gp hd1 hd2 (s1.length + s2.length)
      s1.length s2.length [] [] (by omega) (by omega) (by omega)
  have hloop2 := tracebackLoop_mono s1 s2 ms mp gp _
    (s1.length + s2.length + 1) (s1.length + 2*s2.length + 8) _ _ (by omega) hloop
  simp only [List.nil_append] at hloop2
  have halign := global_alignment_of_loop hloop2
  rw [List.take_length] at h1 h2
  exact ⟨t1.reverse, t2.reverse, _, halign, by simpa using hlen, h1, h2⟩

theorem c2_amended_witness :
    ('-' ∉ (['A','C'] : List Char) ∧ '-' ∉ (['C'] : List Char))
    ∧ ∃ (o1 o2 : List Char) (sc : Int),
        global_alignment ['A','C'] ['C'] 1 1 2 false = some (o1, o2, sc)
        ∧ o1.length = o2.length ∧ stripGaps o1 = ['A','C'] ∧ stripGaps o2 = ['C'] :=
  ⟨⟨by decide, by decide⟩, c2_amended ['A','C'] ['C'] 1 1 2 (by decide) (by decide)⟩

/-- C3: at `seq1 = "A"`, `seq2 = ""`, `unpenalized_end_gaps = True` the
traceback immediately falls into the left branch with `j = 0` and evaluates
`seq2[-1]` on the empty string: an uncaught `IndexError` (modelled as
`none`), contradicting the claim that the function is total. -/
theorem c3_crash_on_flagged_empty :
    global_alignment ['A'] [] 1 1 1 true = none := by decide

/-- C4 counterexample: with `unpenalized_end_gaps = True` and an empty first
sequence, the boundary row is all zeros, so the score is `0`, not
`-gapPenalty * len(S)`. -/
theorem c4_counterexample :
    global_alignment [] ['A'] 1 1 3 true = some (['-'], ['A'], 0)
      ∧ (0 : Int) ≠ -3 * (((['A'] : List Char).length : Nat) : Int) := by
  constructor
  · decide
  · decide

/-- C4 amended: with `unpenalized_end_gaps = False`, aligning a sequence `S`
against the empty sequence (in either argument position) aligns `S` entirely
against gap markers and scores `-gapPenalty * len(S)`. -/
theorem c4_amended (S : List Char) (ms mp gp : Int) (hS : S ≠ []) :
    global_alignment S [] ms mp gp false
        = some (S, List.replicate S.length '-', -gp * (S.length : Int))
    ∧ global_alignment [] S ms mp gp false
        = some (List.replicate S.length '-', S, -gp * (S.length : Int)) := by
  constructor
  · have hloop := tracebackLoop_col0 S [] ms mp gp S.length
      (S.length + 2*(([] : List Char).length) + 7) [] [] (le_refl _) (by simp)
    have halign := global_alignment_of_loop hloop
    rw [halign]
    simp only [List.length_nil]
    rw [fillMatrix_col0 S [] ms mp gp S.length (le_refl _)]
    simp [List.take_length, List.reverse_replicate]
  · have hloop := tracebackLoop_row0 [] S ms mp gp S.length
      ((([] : List Char).length) + 2*S.length + 7) [] [] (le_refl _) (by simp; omega)
    have halign := global_alignment_of_loop hloop
    rw [halign]
    simp only [List.length_nil]
    rw [fillMatrix_row0 [] S ms mp gp S.length (le_refl _)]
    simp [List.take_length, List.reverse_replicate]

theorem c4_amended_witness :
    ((['A','C'] : List Char) ≠ [])
    ∧ global_alignment ['A','C'] [] 1 1 3 false
        = some (['A','C'], List.replicate (['A','C'] : List Char).length '-',
            -3 * (((['A','C'] : List Char).length : Nat) : Int))
    ∧ global_alignment [] ['A','C'] 1 1 3 false
        = some (List.replicate (['A','C'] : List Char).length '-', ['A','C'],
            -3 * (((['A','C'] : List Char).length : Nat) : Int)) :=
  ⟨by decide, (c4_amended ['A','C'] 1 1 3 (by decide)).1, (c4_amended ['A','C'] 1 1 3 (by decide)).2⟩

/-- C5: the traceback starts at `(M, N)` with empty accumulators and the
result reverses the collected emissions; the loop returns exactly at
`i = 0, j = 0`; each iteration tries the diagonal move first, then the up
move, and otherwise takes the left move; the left fallback is taken for an
arbitrary matrix as soon as the two prior tests fail, without any comparison
against the insert candidate `cell(i,j-1) - gapPenalty`. -/
theorem c5_traceback_behavior (s1 s2 : List Char) (ms mp gp : Int) (fl : Bool) (m : Mat) :
    (global_alignment s1 s2 ms mp gp fl
      = Option.map
          (fun p : List Char × List Char =>
            (p.1.reverse, p.2.reverse, fillMatrix s1 s2 ms mp gp fl s1.length s2.length))
          (tracebackLoop s1 s2 ms mp gp (fillMatrix s1 s2 ms mp gp fl)
            (s1.length + 2*s2.length + 8) ((s1.length : Int), (s2.length : Int), [], [])))
    ∧ (∀ (fuel : Nat) (a1 a2 : List Char),
        tracebackLoop s1 s2 ms mp gp m (fuel+1) (((0:Nat) : Int), ((0:Nat) : Int), a1, a2)
          = some (a1, a2))
    ∧ (∀ (i j : Nat) (a1 a2 : List Char) (c1 c2 : Char),
        s1.get? i = some c1 → s2.get? j = some c2 →
        m (i+1) (j+1) = m i j + (if c1 = c2 then ms else -mp) →
        tracebackStep s1 s2 ms mp gp m (((i+1 : Nat) : Int), ((j+1 : Nat) : Int), a1, a2)
          = some ((i : Int), (j : Int), a1 ++ [c1], a2 ++ [c2]))
    ∧ (∀ (i j : Nat) (a1 a2 : List Char) (c1 c2 : Char),
        s1.get? i = some c1 → s2.get? j = some c2 →
        ¬ m (i+1) (j+1) = m i j + (if c1 = c2 then ms else -mp) →
        m (i+1) (j+1) = m i (j+1) - gp →
        tracebackStep s1 s2 ms mp gp m (((i+1 : Nat) : Int), ((j+1 : Nat) : Int), a1, a2)
          = some ((i : Int), ((j+1 : Nat) : Int), a1 ++ [c1], a2 ++ ['-']))
    ∧ (∀ (i j : Nat) (a1 a2 : List Char) (c1 c2 : Char),
        s1.get? i = some c1 → s2.get? j = some c2 →
        ¬ m (i+1) (j+1) = m i j + (if c1 = c2 then ms else -mp) →
        ¬ m (i+1) (j+1) = m i (j+1) - gp →
        tracebackStep s1 s2 ms mp gp m (((i+1 : Nat) : Int), ((j+1 : Nat) : Int), a1, a2)
          = some (((i+1 : Nat) : Int), (j : Int), a1 ++ ['-'], a2 ++ [c2]))
    ∧ (∀ (j : Nat) (a1 a2 : List Char) (c2 : Char),
        s2.get? j = some c2 →
        tracebackStep s1 s2 ms mp gp m (((0:Nat) : Int), ((j+1 : Nat) : Int), a1, a2)
          = some (((0:Nat) : Int), (j : Int), a1 ++ ['-'], a2 ++ [c2])) := by
  refine ⟨?_, tracebackLoop_exit s1 s2 ms mp gp m,
    tracebackStep_diag s1 s2 ms mp gp m,
    tracebackStep_up_pos s1 s2 ms mp gp m,
    tracebackStep_left_pos s1 s2 ms mp gp m,
    tracebackStep_left_i0 s1 s2 ms mp gp m⟩
  simp only [global_alignment]
  cases hloop : tracebackLoop s1 s2 ms mp gp (fillMatrix s1 s2 ms mp gp fl)
      (s1.length + 2*s2.length + 8) ((s1.length : Int), (s2.length : Int), [], []) with
  | some p =>
      obtain ⟨a1, a2⟩ := p
      rfl
  | none => rfl

theorem c5_witness :
    ((['A'] : List Char).get? 0 = some 'A'
      ∧ (['B'] : List Char).get? 0 = some 'B'
      ∧ ¬ probeMat 1 1 = probeMat 0 0 + (if 'A' = 'B' then (1:Int) else -1)
      ∧ ¬ probeMat 1 1 = probeMat 0 1 - 1)
    ∧ tracebackStep ['A'] ['B'] 1 1 1 probeMat
        (((0+1 : Nat) : Int), ((0+1 : Nat) : Int), [], [])
        = some (((0+1 : Nat) : Int), ((0 : Nat) : Int), ['-'], ['B']) :=
  ⟨⟨by decide, by decide, by decide, by decide⟩,
   (c5_traceback_behavior ['A'] ['B'] 1 1 1 false probeMat).2.2.2.2.1
     0 0 [] [] 'A' 'B' (by decide) (by decide) (by decide) (by decide)⟩

/-- C6: aligning any sequence with itself, with positive match score and
non-negative penalties, under either flag value, scores
`matchScore * len(A)` and returns both outputs equal to `A`. -/
theorem c6_self_alignment (A : List Char) (ms mp gp : Int) (fl : Bool)
    (hms : 0 < ms) (hmp : 0 ≤ mp) (hgp : 0 ≤ gp) :
    global_alignment A A ms mp gp fl = some (A, A, ms * (A.length : Int)) := by
  have hloop := tracebackLoop_diagonal A ms mp gp fl (le_of_lt hms) hmp hgp
    A.length (A.length + 2*A.length + 7) [] [] (le_refl _) (by omega)
  have halign := global_alignment_of_loop hloop
  rw [halign, fill_correct A A ms mp gp fl A.length A.length (le_refl _) (le_refl _),
    cell_diag A ms mp gp fl (le_of_lt hms) hmp hgp A.length]
  simp [List.take_length]

theorem c6_witness :
    ((0:Int) < 2 ∧ (0:Int) ≤ 1 ∧ (0:Int) ≤ 1)
    ∧ global_alignment ['A','C'] ['A','C'] 2 1 1 false
        = some (['A','C'], ['A','C'], 2 * (((['A','C'] : List Char).length : Nat) : Int)) :=
  ⟨⟨by decide, by decide, by decide⟩,
   c6_self_alignment ['A','C'] 2 1 1 false (by decide) (by decide) (by decide)⟩

/-- C7 counterexample: with a gap penalty of `0` there is a tie between the
up and left transitions; `align(A,B)` resolves it with an up move while
`align(B,A)` resolves the transposed tie with its own up move, so the two
output pairs are not sequence-swapped images of each other (the scores are
still equal). -/
theorem c7_counterexample :
    global_alignment ['A'] ['B'] 1 1 0 false = some (['-','A'], ['B','-'], 0)
    ∧ global_alignment ['B'] ['A'] 1 1 0 false = some (['-','B'], ['A','-'], 0)
    ∧ ¬ ((['-','A'] : List Char) = ['A','-'] ∧ (['B','-'] : List Char) = ['-','B']) := by
  exact ⟨by decide, by decide, by decide⟩

/-- C7 amended: for all non-empty sequences and identical parameters, the
two calls return equal scores whenever both return; the output pairs need
not be swapped images of each other. -/
theorem c7_amended (A B : List Char) (ms mp gp : Int) (fl : Bool)
    (hA : A ≠ []) (hB : B ≠ [])
    (r1 r2 : List Char × List Char × Int)
    (h1 : global_alignment A B ms mp gp fl = some r1)
    (h2 : global_alignment B A ms mp gp fl = some r2) :
    r1.2.2 = r2.2.2 := by
  rw [global_alignment_score h1, global_alignment_score h2,
    fill_correct A B ms mp gp fl A.length B.length (le_refl _) (le_refl _),
    fill_correct B A ms mp gp fl B.length A.length (le_refl _) (le_refl _)]
  exact (cell_transpose A B ms mp gp fl (A.length + B.length) A.length B.length (le_refl _)).symm

theorem c7_amended_witness :
    ((['A'] : List Char) ≠ [] ∧ (['B'] : List Char) ≠ []
      ∧ global_alignment ['A'] ['B'] 1 1 0 false = some (['-','A'], ['B','-'], 0)
      ∧ global_alignment ['B'] ['A'] 1 1 0 false = some (['-','B'], ['A','-'], 0))
    ∧ ((['-','A'], ['B','-'], (0:Int)) : List Char × List Char × Int).2.2
        = ((['-','B'], ['A','-'], (0:Int)) : List Char × List Char × Int).2.2 :=
  ⟨⟨by decide, by decide, by decide, by decide⟩,
   c7_amended ['A'] ['B'] 1 1 0 false (by decide) (by decide)
     (['-','A'], ['B','-'], 0) (['-','B'], ['A','-'], 0) (by decide) (by decide)⟩

/-- C9 counterexample: a diagonal traceback iteration decreases `i + j` by
two, not by one, as at state `(1, 1)` for `"A"` versus `"A"`. -/
theorem c9_counterexample :
    tracebackStep ['A'] ['A'] 1 1 1 (fillMatrix ['A'] ['A'] 1 1 1 false)
        (1, 1, [], []) = some (0, 0, ['A'], ['A'])
    ∧ ((1:Int) + 1) - (0 + 0) ≠ 1 := by
  exact ⟨by decide, by decide⟩

/-- C9 amended: with `unpenalized_end_gaps = False`, for arbitrary sequences
and arbitrary (also negative) integer parameters, every loop iteration from
an in-range state succeeds (all index accesses in bounds), stays in range,
moves each index down by at most one, and strictly decreases `i + j` (by one
or two); consequently fuel `i + j + 1` — at most `M + N` iterations from the
start state — makes the loop return. -/
theorem c9_amended_traceback_safety (s1 s2 : List Char) (ms mp gp : Int) :
    (∀ (i j : Nat) (a1 a2 : List Char), i ≤ s1.length → j ≤ s2.length → 0 < i ∨ 0 < j →
      ∃ (i2 j2 : Nat) (b1 b2 : List Char),
        tracebackStep s1 s2 ms mp gp (fillMatrix s1 s2 ms mp gp false)
            ((i : Int), (j : Int), a1, a2) = some ((i2 : Int), (j2 : Int), b1, b2)
        ∧ i2 ≤ s1.length ∧ j2 ≤ s2.length ∧ i2 + j2 < i + j ∧ i ≤ i2 + 1 ∧ j ≤ j2 + 1)
    ∧ (∀ (i j : Nat) (a1 a2 : List Char), i ≤ s1.length → j ≤ s2.length →
        ∃ r, tracebackLoop s1 s2 ms mp gp (fillMatrix s1 s2 ms mp gp false) (i + j + 1)
            ((i : Int), (j : Int), a1, a2) = some r) := by
  constructor
  · intro i j a1 a2 hi hj hpos
    exact tracebackStep_progress s1 s2 ms mp gp i j hi hj hpos a1 a2
  · intro i j a1 a2 hi hj
    exact tracebackLoop_success s1 s2 ms mp gp (i+j) i j a1 a2 (le_refl _) hi hj

theorem c9_witness :
    (1 ≤ (['A'] : List Char).length ∧ (0 < 1 ∨ 0 < 1))
    ∧ (∃ (i2 j2 : Nat) (b1 b2 : List Char),
        tracebackStep ['A'] ['A'] 1 1 (-2) (fillMatrix ['A'] ['A'] 1 1 (-2) false)
            (((1:Nat) : Int), ((1:Nat) : Int), [], []) = some ((i2 : Int), (j2 : Int), b1, b2)
        ∧ i2 ≤ (['A'] : List Char).length ∧ j2 ≤ (['A'] : List Char).length
        ∧ i2 + j2 < 1 + 1 ∧ 1 ≤ i2 + 1 ∧ 1 ≤ j2 + 1)
    ∧ (∃ r, tracebackLoop ['A'] ['A'] 1 1 (-2) (fillMatrix ['A'] ['A'] 1 1 (-2) false)
          (1 + 1 + 1) (((1:Nat) : Int), ((1:Nat) : Int), [], []) = some r) :=
  ⟨⟨by decide, by decide⟩,
   (c9_amended_traceback_safety ['A'] ['A'] 1 1 (-2)).1 1 1 [] []
     (by decide) (by decide) (by decide),
   (c9_amended_traceback_safety ['A'] ['A'] 1 1 (-2)).2 1 1 [] []
     (by decide) (by decide)⟩

/-- C10: for fixed sequences and flag, the returned score is monotone
non-decreasing in the match score and monotone non-increasing in the
mismatch and gap penalties, whenever both compared calls return. -/
theorem c10_score_monotonicity (s1 s2 : List Char) (fl : Bool) :
    (∀ (ms ms' mp gp : Int) (r r' : List Char × List Char × Int),
      ms ≤ ms' →
      global_alignment s1 s2 ms mp gp fl = some r →
      global_alignment s1 s2 ms' mp gp fl = some r' →
      r.2.2 ≤ r'.2.2)
    ∧ (∀ (ms mp mp' gp : Int) (r r' : List Char × List Char × Int),
      mp ≤ mp' →
      global_alignment s1 s2 ms mp gp fl = some r →
      global_alignment s1 s2 ms mp' gp fl = some r' →
      r'.2.2 ≤ r.2.2)
    ∧ (∀ (ms mp gp gp' : Int) (r r' : List Char × List Char × Int),
      gp ≤ gp' →
      global_alignment s1 s2 ms mp gp fl = some r →
      global_alignment s1 s2 ms mp gp' fl = some r' →
      r'.2.2 ≤ r.2.2) := by
  refine ⟨?_, ?_, ?_⟩
  · intro ms ms' mp gp r r' hle h1 h2
    rw [global_alignment_score h1, global_alignment_score h2,
      fill_correct s1 s2 ms mp gp fl s1.length s2.length (le_refl _) (le_refl _),
      fill_correct s1 s2 ms' mp gp fl s1.length s2.length (le_refl _) (le_refl _)]
    exact cell_mono_ms s1 s2 ms ms' mp gp fl hle (s1.length + s2.length)
      s1.length s2.length (le_refl _)
  · intro ms mp mp' gp r r' hle h1 h2
    rw [global_alignment_score h1, global_alignment_score h2,
      fill_correct s1 s2 ms mp gp fl s1.length s2.length (le_refl _) (le_refl _),
      fill_correct s1 s2 ms mp' gp fl s1.length s2.length (le_refl _) (le_refl _)]
    exact cell_anti_mp s1 s2 ms mp mp' gp fl hle (s1.length + s2.length)
      s1.length s2.length (le_refl _)
  · intro ms mp gp gp' r r' hle h1 h2
    rw [global_alignment_score h1, global_alignment_score h2,
      fill_correct s1 s2 ms mp gp fl s1.length s2.length (le_refl _) (le_refl _),
      fill_correct s1 s2 ms mp gp' fl s1.length s2.length (le_refl _) (le_refl _)]
    exact cell_anti_gp s1 s2 ms mp gp gp' fl hle (s1.length + s2.length)
      s1.length s2.length (le_refl _)

theorem c10_witness :
    ((1:Int) ≤ 2
      ∧ global_alignment ['A'] ['A'] 1 1 1 false = some (['A'], ['A'], 1)
      ∧ global_alignment ['A'] ['A'] 2 1 1 false = some (['A'], ['A'], 2)
      ∧ global_alignment ['A'] ['A'] 1 2 1 false = some (['A'], ['A'], 1)
      ∧ global_alignment ['A'] ['A'] 1 1 2 false = some (['A'], ['A'], 1))
    ∧ ((['A'], ['A'], (1:Int)) : List Char × List Char × Int).2.2
        ≤ ((['A'], ['A'], (2:Int)) : List Char × List Char × Int).2.2
    ∧ ((['A'], ['A'], (1:Int)) : List Char × List Char × Int).2.2
        ≤ ((['A'], ['A'], (1:Int)) : List Char × List Char × Int).2.2
    ∧ ((['A'], ['A'], (1:Int)) : List Char × List Char × Int).2.2
        ≤ ((['A'], ['A'], (1:Int)) : List Char × List Char × Int).2.2 :=
  ⟨⟨by decide, by decide, by decide, by decide, by decide⟩,
   (c10_score_monotonicity ['A'] ['A'] false).1 1 2 1 1
     (['A'], ['A'], 1) (['A'], ['A'], 2) (by decide) (by decide) (by decide),
   (c10_score_monotonicity ['A'] ['A'] false).2.1 1 1 2 1
     (['A'], ['A'], 1) (['A'], ['A'], 1) (by decide) (by decide) (by decide),
   (c10_score_monotonicity ['A'] ['A'] false).2.2 1 1 1 2
     (['A'], ['A'], 1) (['A'], ['A'], 1) (by decide) (by decide) (by decide)⟩

/-- C8: the concrete scenario `align("A", "", 1, 1, 3, False)` returns score
`-3`, first output `"A"`, second output `"-"`. -/
theorem c8_concrete_scenario :
    global_alignment ['A'] [] 1 1 3 false = some (['A'], ['-'], -3) := by decide
